import Mathlib

/-
Verification of the Jinx compilation pipeline (JxParser.cpp, JxRuntime.cpp)
against its natural-language specification.  The parser and runtime are
shallowly embedded as executable Lean functions; virtual-machine opcode
semantics (JxScript.cpp is not part of the sources) are modelled from the
specification where a claim needs them, and are marked as such.
-/

namespace Jinx

/-- Bytecode opcodes, named as in the source `Opcode` enum (the subset the
claims exercise). -/
inductive Opcode where
  | Add | And | CallFunc | Cast | Divide | Equals
  | EraseProp | ErasePropElem | EraseVar | EraseVarElem
  | Exit | Greater | GreaterEq | Jump | JumpFalse | JumpTrue
  | Less | LessEq | Library | LoopCount | LoopOver | Mod | Multiply
  | Not | NotEquals | Or | Pop | PopCount | PushColl | PushItr | PushList
  | PushProp | PushPropKeyVal | PushTop | PushVal | PushVar | PushVarKey
  | Return | ReturnValue | ScopeBegin | ScopeEnd | SetIndex | SetProp
  | SetPropKeyVal | SetVar | SetVarKey | Subtract | Wait
  deriving DecidableEq, Repr

/-- Binary-operator symbols accepted by `Parser::CheckBinaryOperator`
(JxParser.cpp lines 230-247). -/
inductive BinOpSym where
  | Asterisk | Equals | NotEquals | ForwardSlash | GreaterThan
  | GreaterThanEquals | LessThan | LessThanEquals | Minus | Percent | Plus
  deriving DecidableEq, Repr

/-- Embeds `Parser::ParseBinaryOperator` (JxParser.cpp lines 677-724): the
opcode chosen for each binary-operator symbol. -/
def ParseBinaryOperator : BinOpSym → Opcode
  | .Asterisk => .Multiply
  | .Equals => .Equals
  | .NotEquals => .NotEquals
  | .ForwardSlash => .Divide
  | .GreaterThan => .Greater
  | .GreaterThanEquals => .GreaterEq
  | .LessThan => .Less
  | .LessThanEquals => .LessEq
  | .Minus => .Subtract
  | .Percent => .Mod
  | .Plus => .Add

/-- Instructions of the emitted bytecode stream, with their operands (the
fragment the expression claims exercise): `PushVal` with an integer literal,
an operandless binary-operation opcode, and `SetVar` with a variable name. -/
inductive Instr where
  | pushVal (v : Int)
  | op (oc : Opcode)
  | setVar (name : String)
  deriving DecidableEq, Repr

/-- Embeds `Parser::ParseSubexpressionOperand` (JxParser.cpp lines 1374-1446),
restricted to integer-literal operands (the `CheckValue`/`ParseValue` branch):
it emits `PushVal` for the literal and then, if the local opcode stack is
non-empty, immediately emits the stack's top opcode and pops it. -/
def ParseSubexpressionOperand (v : Int) (opcodeStack : List Opcode) :
    List Instr × List Opcode :=
  let code := [Instr.pushVal v]
  match opcodeStack with
  | [] => (code, [])
  | oc :: rest => (code ++ [Instr.op oc], rest)

/-- Embeds `Parser::ParseSubexpressionOperation` (JxParser.cpp lines
1448-1484) on a flat expression `v (sym v)*`: parse an operand (which emits
any pending opcode), then, while a binary operator follows, push its opcode
onto the local stack and continue with the next operand. -/
def ParseSubexpressionOperation (v : Int) (rest : List (BinOpSym × Int))
    (opcodeStack : List Opcode) : List Instr × List Opcode :=
  match ParseSubexpressionOperand v opcodeStack with
  | (code, stack1) =>
    match rest with
    | [] => (code, stack1)
    | (sym, v2) :: rest2 =>
      let stack2 := ParseBinaryOperator sym :: stack1
      match ParseSubexpressionOperation v2 rest2 stack2 with
      | (code2, stackF) => (code ++ code2, stackF)

/-- Embeds `Parser::ParseSubexpression` (JxParser.cpp lines 1486-1517) on a
flat expression: the operation loop starts with an empty local opcode stack,
and a leftover operator on the stack is a syntax error (`none`). -/
def ParseSubexpression (v : Int) (rest : List (BinOpSym × Int)) :
    Option (List Instr) :=
  match ParseSubexpressionOperation v rest [] with
  | (code, []) => some code
  | _ => none

/-- Embeds the variable-assignment branch of `Parser::ParseStatement`
(JxParser.cpp lines 2036-2058) for `set <name> to <expr>` without subscript:
the expression's bytecode followed by `SetVar <name>`. -/
def ParseSetStatement (name : String) (v : Int)
    (rest : List (BinOpSym × Int)) : Option (List Instr) :=
  (ParseSubexpression v rest).map (fun code => code ++ [Instr.setVar name])

/-- Modelled from the spec: integer semantics of the VM's arithmetic opcodes
(JxScript.cpp, the script VM, is not among the sources; section 4.3 of the
spec says integer-integer arithmetic stays integer).  Opcodes outside the
arithmetic family are irrelevant to the evaluation claims and yield 0. -/
def applyBinaryOpcode (oc : Opcode) (a b : Int) : Int :=
  match oc with
  | .Add => a + b
  | .Subtract => a - b
  | .Multiply => a * b
  | .Divide => a / b
  | .Mod => a % b
  | _ => 0

/-- Modelled from the spec: one step of the stack-based VM on the instruction
fragment above.  A binary opcode pops the right then the left operand and
pushes the result; `SetVar` pops the top of stack into the variable table. -/
def execInstr (st : List Int × List (String × Int)) (i : Instr) :
    Option (List Int × List (String × Int)) :=
  match i, st with
  | .pushVal v, (s, vars) => some (v :: s, vars)
  | .op oc, (b :: a :: s, vars) => some (applyBinaryOpcode oc a b :: s, vars)
  | .op _, (_, _) => none
  | .setVar n, (v :: s, vars) => some (s, (n, v) :: vars)
  | .setVar _, (_, _) => none

/-- Modelled from the spec: execution of an instruction sequence on the VM
state (value stack and variable table). -/
def execProgram (code : List Instr) (st : List Int × List (String × Int)) :
    Option (List Int × List (String × Int)) :=
  code.foldlM execInstr st

/-- Flat bytecode a left-to-right emitter produces for the operator/operand
tail of an expression: each operand's push followed immediately by its
operator's opcode. -/
def emittedTail (rest : List (BinOpSym × Int)) : List Instr :=
  rest.flatMap (fun p => [Instr.pushVal p.2, Instr.op (ParseBinaryOperator p.1)])

/-- Left-to-right evaluation of a flat expression with equal precedence among
all binary operators. -/
def leftFoldEval (v : Int) (rest : List (BinOpSym × Int)) : Int :=
  rest.foldl (fun acc p => applyBinaryOpcode (ParseBinaryOperator p.1) acc p.2) v

theorem parseSubexpressionOperation_emit (rest : List (BinOpSym × Int)) :
    (∀ v : Int, ParseSubexpressionOperation v rest [] =
      (Instr.pushVal v :: emittedTail rest, [])) ∧
    (∀ (v : Int) (oc : Opcode), ParseSubexpressionOperation v rest [oc] =
      (Instr.pushVal v :: Instr.op oc :: emittedTail rest, [])) := by
  induction rest with
  | nil =>
    constructor <;> intros <;> rfl
  | cons p rest ih =>
    obtain ⟨sym, w⟩ := p
    constructor
    · intro v
      simp only [ParseSubexpressionOperation, ParseSubexpressionOperand,
        ih.2 w (ParseBinaryOperator sym), emittedTail, List.flatMap_cons]
      rfl
    · intro v oc
      simp only [ParseSubexpressionOperation, ParseSubexpressionOperand,
        ih.2 w (ParseBinaryOperator sym), emittedTail, List.flatMap_cons]
      rfl

theorem execProgram_emittedTail (rest : List (BinOpSym × Int)) :
    ∀ (acc : Int) (s : List Int) (vars : List (String × Int)),
      execProgram (emittedTail rest) (acc :: s, vars) =
        some (leftFoldEval acc rest :: s, vars) := by
  induction rest with
  | nil => intro acc s vars; rfl
  | cons p rest ih =>
    intro acc s vars
    obtain ⟨sym, w⟩ := p
    simp only [emittedTail, List.flatMap_cons, execProgram, List.foldlM_cons,
      execInstr, Option.bind_eq_bind, Option.some_bind] at ih ⊢
    simpa [leftFoldEval] using ih (applyBinaryOpcode (ParseBinaryOperator sym) acc w) s vars

/-- C2: for every flat expression with binary operators, the bytecode the
parser emits evaluates left to right with equal precedence among all binary
operators: after each operand is parsed the pending operator opcode on the
local opcode stack is emitted immediately, so the emitted stream is
`v₀ v₁ op₁ v₂ op₂ …` (operators in source order), and executing it computes
the left fold of the operators over the operands. -/
theorem checkC2 (v : Int) (rest : List (BinOpSym × Int))
    (vars : List (String × Int)) :
    ParseSubexpression v rest = some (Instr.pushVal v :: emittedTail rest) ∧
    execProgram (Instr.pushVal v :: emittedTail rest) ([], vars) =
      some ([leftFoldEval v rest], vars) := by
  constructor
  · simp [ParseSubexpression, (parseSubexpressionOperation_emit rest).1 v]
  · simp only [execProgram, List.foldlM_cons, execInstr, Option.bind_eq_bind,
      Option.some_bind]
    exact execProgram_emittedTail rest v [] vars

/-- C1 counterexample: compiling `set x to 3 + 4 * 2` emits the `+` opcode
before the `*` opcode (left-to-right, equal precedence), and executing the
compiled statement leaves `x` equal to 14, not 11. -/
theorem checkC1_counterexample :
    ParseSetStatement "x" 3 [(BinOpSym.Plus, 4), (BinOpSym.Asterisk, 2)] =
      some [Instr.pushVal 3, Instr.pushVal 4, Instr.op Opcode.Add,
            Instr.pushVal 2, Instr.op Opcode.Multiply, Instr.setVar "x"] ∧
    execProgram [Instr.pushVal 3, Instr.pushVal 4, Instr.op Opcode.Add,
            Instr.pushVal 2, Instr.op Opcode.Multiply, Instr.setVar "x"]
        ([], []) = some ([], [("x", 14)]) ∧
    ((14 : Int) == 11) = false := by
  refine ⟨rfl, rfl, rfl⟩

/-- C1 amended: after executing the compiled statement
`set x to 3 + 4 * 2`, the variable `x` equals integer 14: the parser's
operator stack emits the `+` opcode before the `*` opcode, so the expression
is evaluated left to right as `(3 + 4) * 2`. -/
theorem checkC1 :
    ParseSetStatement "x" 3 [(BinOpSym.Plus, 4), (BinOpSym.Asterisk, 2)] =
      some [Instr.pushVal 3, Instr.pushVal 4, Instr.op Opcode.Add,
            Instr.pushVal 2, Instr.op Opcode.Multiply, Instr.setVar "x"] ∧
    ([Instr.pushVal 3, Instr.pushVal 4, Instr.op Opcode.Add,
      Instr.pushVal 2, Instr.op Opcode.Multiply,
      Instr.setVar "x"].indexOf (Instr.op Opcode.Add) <
     [Instr.pushVal 3, Instr.pushVal 4, Instr.op Opcode.Add,
      Instr.pushVal 2, Instr.op Opcode.Multiply,
      Instr.setVar "x"].indexOf (Instr.op Opcode.Multiply)) ∧
    execProgram [Instr.pushVal 3, Instr.pushVal 4, Instr.op Opcode.Add,
            Instr.pushVal 2, Instr.op Opcode.Multiply, Instr.setVar "x"]
        ([], []) = some ([], [("x", 14)]) := by
  refine ⟨rfl, by decide, rfl⟩

/-- Modelled from the spec: the continue-test of the `LoopCount` opcode
(JxScript.cpp, the script VM, is not among the sources).  The spec says the
opcode "increments by the top-of-stack step and compares against the bound";
the already-incremented counter continues the loop while it has not passed
the bound in the direction of the step. -/
def loopCountContinues (counter bound step : Int) : Bool :=
  if 0 ≤ step then counter ≤ bound else bound ≤ counter

/-- Execution of the counter loop compiled by `Parser::ParseLoop`
(JxParser.cpp lines 1783-1832, the `from` branch): the bytecode places the
loop body before the `LoopCount`/`JumpTrue` pair and control falls straight
into the body, so each round runs the body once, then increments the counter
and jumps back to the body while the test holds.  `runCounterLoop fuel A B S`
counts the body executions of `loop from A to B by S` (`S` the effective
integer step; the default `by` emits a null the VM treats as step 1), or
returns `none` when the fuel runs out before the loop exits. -/
def runCounterLoop : Nat → Int → Int → Int → Option Nat
  | 0, _, _, _ => none
  | fuel + 1, counter, bound, step =>
    let c := counter + step
    if loopCountContinues c bound step then
      match runCounterLoop fuel c bound step with
      | some n => some (n + 1)
      | none => none
    else
      some 1

/-- Integer ceiling division: the least integer not below the rational
quotient (meaningful for a nonzero divisor). -/
def ceilDiv (a b : Int) : Int := if 0 < b then -((-a) / b) else a / b

/-- Iteration-count formula asserted by the claim for `loop from A to B by
S`: max(0, ceil((B − A + sign(S)) / S)). -/
def claimedLoopIterations (A B S : Int) : Int :=
  max 0 (ceilDiv (B - A + Int.sign S) S)

theorem ceilDiv_le_iff {S : Int} (hS : 0 < S) (x a : Int) :
    ceilDiv x S ≤ a ↔ x ≤ a * S := by
  rw [ceilDiv, if_pos hS, neg_le, Int.le_ediv_iff_mul_le hS, neg_mul,
    neg_le_neg_iff]

theorem ceilDiv_add_right {S : Int} (hS : 0 < S) (x : Int) :
    ceilDiv (x + S) S = ceilDiv x S + 1 := by
  rw [ceilDiv, ceilDiv, if_pos hS, if_pos hS, neg_add]
  have h : -x + -S = -x + (-1) * S := by ring
  rw [h, Int.add_mul_ediv_right _ _ (by omega : S ≠ 0)]
  ring

theorem runCounterLoop_succ (fuel : Nat) (A B S : Int) :
    runCounterLoop (fuel + 1) A B S =
      if loopCountContinues (A + S) B S then
        match runCounterLoop fuel (A + S) B S with
        | some n => some (n + 1)
        | none => none
      else some 1 := rfl

theorem runCounterLoop_pos {S : Int} (hS : 0 < S) :
    ∀ (k : Nat) (A B : Int), B - A ≤ S * k →
      runCounterLoop (k + 1) A B S =
        some (max 1 (ceilDiv (B - A + 1) S)).toNat := by
  intro k
  induction k with
  | zero =>
    intro A B hk
    simp only [Nat.cast_zero, mul_zero] at hk
    have ht : loopCountContinues (A + S) B S = false := by
      simp only [loopCountContinues, if_pos hS.le, decide_eq_false_iff_not]
      omega
    have hc : ceilDiv (B - A + 1) S ≤ 1 := by
      rw [ceilDiv_le_iff hS]
      omega
    have hmax : max 1 (ceilDiv (B - A + 1) S) = 1 := max_eq_left hc
    simp [runCounterLoop, ht, hmax]
  | succ k ih =>
    intro A B hk
    have hcast : S * ((k + 1 : Nat) : Int) = S * k + S := by push_cast; ring
    rw [hcast] at hk
    by_cases hb : A + S ≤ B
    · have ht : loopCountContinues (A + S) B S = true := by
        simp only [loopCountContinues, if_pos hS.le, decide_eq_true_eq]
        omega
      have hrec := ih (A + S) B (by omega)
      have hx : B - (A + S) + 1 + S = B - A + 1 := by ring
      have hstep : ceilDiv (B - A + 1) S = ceilDiv (B - (A + S) + 1) S + 1 := by
        rw [← hx, ceilDiv_add_right hS]
      have hpos2 : 1 ≤ ceilDiv (B - (A + S) + 1) S := by
        by_contra h
        have h0 : ceilDiv (B - (A + S) + 1) S ≤ 0 := by omega
        rw [ceilDiv_le_iff hS, zero_mul] at h0
        omega
      have hm1 : max 1 (ceilDiv (B - (A + S) + 1) S) =
          ceilDiv (B - (A + S) + 1) S := max_eq_right hpos2
      have hm2 : max 1 (ceilDiv (B - A + 1) S) = ceilDiv (B - A + 1) S :=
        max_eq_right (by omega)
      rw [runCounterLoop_succ, if_pos ht, hrec, hm1, hm2, hstep]
      show some _ = some _
      congr 1
      omega
    · have ht : loopCountContinues (A + S) B S = false := by
        simp only [loopCountContinues, if_pos hS.le, decide_eq_false_iff_not]
        omega
      have hc : ceilDiv (B - A + 1) S ≤ 1 := by
        rw [ceilDiv_le_iff hS]
        omega
      have hmax : max 1 (ceilDiv (B - A + 1) S) = 1 := max_eq_left hc
      simp [runCounterLoop, ht, hmax]

theorem runCounterLoop_mono :
    ∀ (f f' : Nat), f ≤ f' → ∀ (A B S : Int) (n : Nat),
      runCounterLoop f A B S = some n → runCounterLoop f' A B S = some n := by
  intro f
  induction f with
  | zero => intro f' _ A B S n h; simp [runCounterLoop] at h
  | succ f ih =>
    intro f' hle A B S n h
    obtain ⟨g, rfl⟩ : ∃ g, f' = g + 1 := ⟨f' - 1, by omega⟩
    simp only [runCounterLoop] at h ⊢
    by_cases ht : loopCountContinues (A + S) B S = true
    · simp only [ht, if_true] at h ⊢
      cases hr : runCounterLoop f (A + S) B S with
      | none => rw [hr] at h; exact absurd h (by simp)
      | some m =>
        rw [hr] at h
        rw [ih g (by omega) _ _ _ _ hr]
        exact h
    · simp only [Bool.not_eq_true] at ht
      simp only [ht, Bool.false_eq_true, if_false] at h ⊢
      exact h

theorem runCounterLoop_neg_symm :
    ∀ (f : Nat) (A B S : Int), S < 0 →
      runCounterLoop f A B S = runCounterLoop f (-A) (-B) (-S) := by
  intro f
  induction f with
  | zero => intro A B S _; rfl
  | succ f ih =>
    intro A B S hS
    have ht : loopCountContinues (A + S) B S =
        loopCountContinues (-A + -S) (-B) (-S) := by
      simp only [loopCountContinues]
      rw [if_neg (by omega : ¬ (0 : Int) ≤ S), if_pos (by omega : (0 : Int) ≤ -S)]
      exact decide_eq_decide.mpr (by omega)
    have hrec : runCounterLoop f (A + S) B S =
        runCounterLoop f (-A + -S) (-B) (-S) := by
      have := ih (A + S) B S hS
      rwa [neg_add] at this
    simp only [runCounterLoop, ht, hrec]

theorem claimedLoopIterations_neg {S : Int} (hS : S < 0) (A B : Int) :
    claimedLoopIterations A B S = claimedLoopIterations (-A) (-B) (-S) := by
  have h1 : Int.sign S = -1 := Int.sign_eq_neg_one_of_neg hS
  have h2 : Int.sign (-S) = 1 := Int.sign_eq_one_of_pos (by omega)
  simp only [claimedLoopIterations, h1, h2, ceilDiv]
  rw [if_neg (by omega : ¬ (0 : Int) < S), if_pos (by omega : (0 : Int) < -S)]
  have hx : -(-B - -A + 1) = B - A + -1 := by ring
  rw [hx, Int.ediv_neg, neg_neg]

/-- C3 counterexample: for `loop from 1 to 0` (step 1) the claimed count
`max(0, ceil((B−A+sign S)/S))` is 0, but the compiled loop runs the body
before the `LoopCount` test, so the body executes once even though the range
is empty. -/
theorem checkC3_counterexample :
    runCounterLoop 3 1 0 1 = some 1 ∧
    claimedLoopIterations 1 0 1 = 0 ∧
    ((1 : Nat) == 0) = false := by
  refine ⟨by decide, by decide, rfl⟩

/-- C3 amended: for every `loop from A to B by S` with integer bounds and a
nonzero integer step, the compiled loop terminates and its body executes
exactly `max(1, ceil((B−A+sign(S))/S))` times — the formula of the claim with
the outer `max 0` replaced by `max 1`, because the body is emitted before the
`LoopCount` test and therefore runs at least once even on an empty range. -/
theorem checkC3 (A B S : Int) (hS : S ≠ 0) :
    ∃ (fuel n : Nat), runCounterLoop fuel A B S = some n ∧
      (n : Int) = max 1 (claimedLoopIterations A B S) ∧
      ∀ (fuel2 n2 : Nat), runCounterLoop fuel2 A B S = some n2 → n2 = n := by
  have main : ∀ (A B S : Int), 0 < S →
      ∃ (fuel n : Nat), runCounterLoop fuel A B S = some n ∧
        (n : Int) = max 1 (claimedLoopIterations A B S) := by
    intro A B S hpos
    have hsign : Int.sign S = 1 := Int.sign_eq_one_of_pos hpos
    have hk : B - A ≤ S * ((B - A).toNat : Int) := by
      rcases le_or_lt (B - A) 0 with h0 | h0
      · have : (0 : Int) ≤ S * ((B - A).toNat : Int) :=
          mul_nonneg hpos.le (by positivity)
        omega
      · rw [Int.toNat_of_nonneg h0.le]
        exact le_mul_of_one_le_left h0.le (by omega)
    refine ⟨(B - A).toNat + 1, (max 1 (ceilDiv (B - A + 1) S)).toNat,
      runCounterLoop_pos hpos _ A B hk, ?_⟩
    have hnn : (0 : Int) ≤ max 1 (ceilDiv (B - A + 1) S) :=
      le_trans zero_le_one (le_max_left _ _)
    rw [Int.toNat_of_nonneg hnn, claimedLoopIterations, hsign,
      ← max_assoc, max_eq_left zero_le_one]
  have uniq : ∀ (fuel n : Nat), runCounterLoop fuel A B S = some n →
      ∀ (fuel2 n2 : Nat), runCounterLoop fuel2 A B S = some n2 → n2 = n := by
    intro fuel n h fuel2 n2 h2
    have e1 := runCounterLoop_mono fuel (max fuel fuel2) (le_max_left _ _)
      A B S n h
    have e2 := runCounterLoop_mono fuel2 (max fuel fuel2) (le_max_right _ _)
      A B S n2 h2
    rw [e1] at e2
    exact (Option.some_injective _ e2).symm
  rcases lt_or_gt_of_ne hS with hneg | hpos
  · obtain ⟨fuel, n, hrun, hval⟩ := main (-A) (-B) (-S) (by omega)
    refine ⟨fuel, n, ?_, ?_, ?_⟩
    · rw [runCounterLoop_neg_symm fuel A B S hneg]; exact hrun
    · rw [claimedLoopIterations_neg hneg]; exact hval
    · intro fuel2 n2 h2
      exact uniq fuel n (by rw [runCounterLoop_neg_symm fuel A B S hneg]; exact hrun)
        fuel2 n2 h2
  · obtain ⟨fuel, n, hrun, hval⟩ := main A B S hpos
    exact ⟨fuel, n, hrun, hval, uniq fuel n hrun⟩

/-- C3 witness: the amended loop-count theorem applied at the concrete loop
`loop from 1 to 3` with step 1 (three body executions). -/
theorem checkC3_witness :
    ∃ (fuel n : Nat), runCounterLoop fuel 1 3 1 = some n ∧
      (n : Int) = max 1 (claimedLoopIterations 1 3 1) ∧
      ∀ (fuel2 n2 : Nat), runCounterLoop fuel2 1 3 1 = some n2 → n2 = n :=
  checkC3 1 3 1 (by decide)

/-- Operand written after an opcode by the parser's emit helpers:
`EmitId` writes an 8-byte RuntimeID, `EmitName` writes a length-prefixed
UTF-8 string. -/
inductive Operand where
  | idOperand (id : Nat)
  | nameOperand (s : String)
  deriving DecidableEq, Repr

/-- Erase target resolved by `Parser::ParseErase`: an existing property
(with its read-only flag and RuntimeID) or a variable, each with or without
a `[...]` subscript. -/
inductive EraseTarget where
  | propTarget (readOnly : Bool) (id : Nat) (subscript : Bool)
  | varTarget (name : String) (subscript : Bool)
  deriving DecidableEq, Repr

/-- Embeds `Parser::ParseErase` (JxParser.cpp lines 1593-1639): the
opcode/operand pair emitted for an erase statement (`none` flags the
read-only error; the subscript's own subexpression bytecode, which precedes
the opcode, is omitted).  In the property-with-subscript branch the source
emits `Opcode::EraseVarElem` and then `EmitId(propName.GetId())`. -/
def ParseErase : EraseTarget → Option (Opcode × Operand)
  | .propTarget true _ _ => none
  | .propTarget false id true => some (.EraseVarElem, .idOperand id)
  | .propTarget false id false => some (.EraseProp, .idOperand id)
  | .varTarget nm true => some (.EraseVarElem, .nameOperand nm)
  | .varTarget nm false => some (.EraseVar, .nameOperand nm)

/-- Operand layouts a bytecode reader distinguishes. -/
inductive OperandLayout where
  | idLayout | stringLayout | countLayout | variantLayout | castLayout
  | setIndexLayout | noArgs
  deriving DecidableEq, Repr

/-- Embeds the operand-layout table of `Runtime::LogBytecode`
(JxRuntime.cpp lines 207-288), the repository's own bytecode decoder, on the
opcode subset of this file: which operand layout the decoder reads after
each opcode. -/
def LogBytecodeLayout : Opcode → OperandLayout
  | .CallFunc | .EraseProp | .ErasePropElem | .PushProp
  | .PushPropKeyVal | .SetProp | .SetPropKeyVal => .idLayout
  | .Cast => .castLayout
  | .EraseVar | .EraseVarElem | .Library | .PushVar | .PushVarKey
  | .SetVar | .SetVarKey => .stringLayout
  | .Jump | .JumpFalse | .JumpTrue | .PopCount | .PushColl | .PushList =>
    .countLayout
  | .PushVal => .variantLayout
  | .SetIndex => .setIndexLayout
  | _ => .noArgs

/-- Layout of an operand the parser actually wrote. -/
def operandLayout : Operand → OperandLayout
  | .idOperand _ => .idLayout
  | .nameOperand _ => .stringLayout

/-- C4: erasing an indexed element of a (non-read-only) property makes the
parser emit `EraseVarElem` followed by an 8-byte RuntimeID — not
`ErasePropElem`, and not the length-prefixed string operand that the
repository's own bytecode decoder (`Runtime::LogBytecode`) reads after an
`EraseVarElem` opcode.  The parser never emits `ErasePropElem` at all. -/
theorem checkC4 :
    ParseErase (.propTarget false 42 true) =
      some (Opcode.EraseVarElem, Operand.idOperand 42) ∧
    LogBytecodeLayout Opcode.EraseVarElem = OperandLayout.stringLayout ∧
    (operandLayout (Operand.idOperand 42) == OperandLayout.stringLayout)
      = false ∧
    ((ParseErase (.propTarget false 42 true)).map Prod.fst ==
      some Opcode.ErasePropElem) = false := by
  refine ⟨rfl, rfl, rfl, rfl⟩

/-- Statement shapes relevant to the `m_returnedValue` flag: a
`return <expr>` statement, any other simple statement, statement
sequencing, `if … end`, and `if … else … end`. -/
inductive Stmt where
  | retVal : Stmt
  | simple : Stmt
  | seq : Stmt → Stmt → Stmt
  | ifEnd : Stmt → Stmt
  | ifElse : Stmt → Stmt → Stmt
  deriving DecidableEq, Repr

/-- Embeds the `m_returnedValue` flag transformer of the parser:
`returnedFlag req s f` is the flag after parsing statement `s` with
`m_requireReturnValue = req` and entry flag `f`.  `retVal` models
`return <expr>` (JxParser.cpp lines 2091-2103: the flag is set when a return
value is required, otherwise the statement is a compile error and the flag
is untouched); `ifEnd` and `ifElse` follow `Parser::ParseIfElse`
(lines 1693-1770): the flag after the if-block is saved, the flag is
cleared before any else-block, the required-return check clears it unless
the if-block returned, and at end-of-construct it is cleared again unless
the if-block returned. -/
def returnedFlag (req : Bool) : Stmt → Bool → Bool
  | .retVal, f => if req then true else f
  | .simple, f => f
  | .seq a b, f => returnedFlag req b (returnedFlag req a f)
  | .ifEnd a, f =>
    let returnedValueInIfBlock := returnedFlag req a f
    let m := false
    if !returnedValueInIfBlock then false else m
  | .ifElse a b, f =>
    let returnedValueInIfBlock := returnedFlag req a f
    let afterElse := returnedFlag req b false
    let afterReq := if req && !returnedValueInIfBlock then false else afterElse
    if !returnedValueInIfBlock then false else afterReq

/-- Statement after which every control path has executed a return: a
return itself, a sequence one of whose parts always returns, or an
if/else both of whose branches always return. -/
def alwaysReturns : Stmt → Bool
  | .retVal => true
  | .simple => false
  | .seq a b => alwaysReturns a || alwaysReturns b
  | .ifEnd _ => false
  | .ifElse a b => alwaysReturns a && alwaysReturns b

/-- Embeds the required-return check of `Parser::ParseFunctionDefinition`
(JxParser.cpp lines 1277-1279): after the body is parsed, the error
"Required return value not found" is flagged iff a return value is required
and `m_returnedValue` is not set.  The parser never resets
`m_returnedValue` at the start (or end) of a function definition — it is
false only from the constructor (line 22) and is set by `return <expr>`
(line 2100) and managed by `ParseIfElse` — so the flag's value when the
definition begins, `entryFlag`, is an input: a previous function
definition's return leaks into this check. -/
def ParseFunctionDefinitionMissingReturn (req : Bool) (body : Stmt)
    (entryFlag : Bool) : Bool :=
  req && !(returnedFlag req body entryFlag)

theorem returnedFlag_sound (req : Bool) :
    ∀ (s : Stmt) (f : Bool), returnedFlag req s f = true →
      f = true ∨ alwaysReturns s = true := by
  intro s
  induction s with
  | retVal => intro f h; simp [alwaysReturns]
  | simple => intro f h; exact Or.inl h
  | seq a b iha ihb =>
    intro f h
    simp only [returnedFlag] at h
    rcases ihb _ h with h1 | h1
    · rcases iha _ h1 with h2 | h2
      · exact Or.inl h2
      · exact Or.inr (by simp [alwaysReturns, h2])
    · exact Or.inr (by simp [alwaysReturns, h1])
  | ifEnd a iha =>
    intro f h
    simp only [returnedFlag] at h
    split at h <;> simp_all
  | ifElse a b iha ihb =>
    intro f h
    simp only [returnedFlag] at h
    by_cases hIf : returnedFlag req a f = true
    · rw [hIf] at h
      simp only [Bool.not_true, Bool.and_false, Bool.false_eq_true,
        if_false] at h
      rcases iha _ hIf with h1 | h1
      · exact Or.inl h1
      · rcases ihb _ h with h2 | h2
        · exact absurd h2 (by simp)
        · exact Or.inr (by simp [alwaysReturns, h1, h2])
    · simp only [Bool.not_eq_true] at hIf
      rw [hIf] at h
      simp at h

/-- C6: the required-return check can pass on a stale flag, because the
parser never resets `m_returnedValue` between function definitions.
Concretely: a first function body `return 1` (parsed from the
constructor-initial clear flag) leaves the flag true; a second definition
`function return g … end` whose body sets the flag on no control path
(`alwaysReturns = false`) is then checked with that stale flag and passes —
whereas the same body checked from a clear entry flag is (correctly)
rejected with "Required return value not found".  So compilation can
succeed although a control path through the body never sets the
return-value flag. -/
theorem checkC6 :
    returnedFlag true Stmt.retVal false = true ∧
    ParseFunctionDefinitionMissingReturn true Stmt.simple
      (returnedFlag true Stmt.retVal false) = false ∧
    alwaysReturns Stmt.simple = false ∧
    ParseFunctionDefinitionMissingReturn true Stmt.simple false = true := by
  refine ⟨rfl, rfl, rfl, rfl⟩

/-- Visibility of a property or function (the source `VisibilityType`). -/
inductive VisibilityType where
  | localVis | privateVis | publicVis
  deriving DecidableEq, Repr

/-- Function signature as far as call resolution is concerned: its
RuntimeID and its visibility. -/
structure FunctionSignature where
  id : Nat
  visibility : VisibilityType
  deriving DecidableEq, Repr

/-- An imported library as the import-search loop of
`Parser::CheckFunctionCall` observes it: whether a library of that name is
registered with the runtime (`Runtime::LibraryExists`), the result of
matching the scanned parts list against its function table
(`Functions().Find(parts)`), and whether it is the parser's own library
(the `library != m_library` test). -/
structure ImportedLibrary where
  present : Bool
  found : Option FunctionSignature
  isCurrent : Bool
  deriving DecidableEq, Repr

/-- Embeds the import-search loop of `Parser::CheckFunctionCall`
(JxParser.cpp lines 462-499): walk the import list in order; a missing
library logs a warning and is skipped; the first match is kept unless it is
a private function of a foreign library (warning, no signature); a second
match is the ambiguity warning and returns no signature. -/
def resolveImports : List ImportedLibrary → Option FunctionSignature →
    Option FunctionSignature
  | [], functionSignature => functionSignature
  | lib :: rest, functionSignature =>
    if !lib.present then resolveImports rest functionSignature
    else
      match lib.found with
      | none => resolveImports rest functionSignature
      | some fnSig =>
        match functionSignature with
        | some _ => none
        | none =>
          if fnSig.visibility = VisibilityType.privateVis ∧ !lib.isCurrent
          then none
          else resolveImports rest (some fnSig)

/-- Embeds the resolution cascade of `Parser::CheckFunctionCall`
(JxParser.cpp lines 434-502) when the call carries no explicit library
prefix: first the local function table (`m_localFunctions.Find`), then the
parser's current library (`m_library->Functions().Find`), then the default
unnamed library (`GetLibraryInternal(libraryName)` with `libraryName`
empty), and finally the import-search loop. -/
def CheckFunctionCall
    (localFind currentFind defaultFind : Option FunctionSignature)
    (imports : List ImportedLibrary) : Option FunctionSignature :=
  match localFind with
  | some s => some s
  | none =>
    match currentFind with
    | some s => some s
    | none =>
      match defaultFind with
      | some s => some s
      | none => resolveImports imports none

/-- Number of imported libraries whose function table matches the call's
parts list (among the libraries that are registered). -/
def importMatches (imports : List ImportedLibrary) : Nat :=
  (imports.filter (fun lib => lib.present && lib.found.isSome)).length

/-- Leading symbol of a statement for the dispatch of
`Parser::ParseStatement` (JxParser.cpp lines 1948-2190). -/
inductive StatementHead where
  | nameHead | setHead | beginHead | ifHead | loopHead | eraseHead
  | incrementHead | decrementHead | returnHead | breakHead | waitHead
  | externalHead
  deriving DecidableEq, Repr

/-- Embeds the path of `Parser::ParseStatement` that reaches
`Error("Unknown symbol in statement")` (JxParser.cpp line 2182): with a
resolved signature the statement compiles as a function call; without one,
a statement whose leading symbol is a plain identifier (`NameValue`, so no
`set`, no scope keyword, and none of the begin/if/loop/erase/increment/
decrement/return/break/wait/external branches accept) falls through every
branch to that parse error. -/
def ParseStatementUnknownSymbol (signature : Option FunctionSignature)
    (head : StatementHead) : Bool :=
  match signature with
  | some _ => false
  | none =>
    match head with
    | .nameHead => true
    | _ => false

theorem resolveImports_some_none (rest : List ImportedLibrary)
    (s : FunctionSignature) (h : 1 ≤ importMatches rest) :
    resolveImports rest (some s) = none := by
  induction rest with
  | nil => simp [importMatches] at h
  | cons lib rest ih =>
    by_cases hp : lib.present = true
    · cases hf : lib.found with
      | none =>
        have hm : importMatches (lib :: rest) = importMatches rest := by
          simp [importMatches, hp, hf]
        rw [hm] at h
        simp only [resolveImports, hp, Bool.not_true, Bool.false_eq_true,
          if_false, hf]
        exact ih h
      | some fnSig =>
        simp only [resolveImports, hp, Bool.not_true, Bool.false_eq_true,
          if_false, hf]
    · have hm : importMatches (lib :: rest) = importMatches rest := by
        simp [importMatches, hp]
      rw [hm] at h
      simp only [resolveImports, hp, Bool.not_false, if_true]
      exact ih h

theorem resolveImports_ambiguous (imports : List ImportedLibrary)
    (h : 2 ≤ importMatches imports) :
    resolveImports imports none = none := by
  induction imports with
  | nil => simp [importMatches] at h
  | cons lib rest ih =>
    by_cases hp : lib.present = true
    · cases hf : lib.found with
      | none =>
        have hm : importMatches (lib :: rest) = importMatches rest := by
          simp [importMatches, hp, hf]
        rw [hm] at h
        simp only [resolveImports, hp, Bool.not_true, Bool.false_eq_true,
          if_false, hf]
        exact ih h
      | some fnSig =>
        have hm : importMatches (lib :: rest) = importMatches rest + 1 := by
          simp [importMatches, hp, hf]
        rw [hm] at h
        simp only [resolveImports, hp, Bool.not_true, Bool.false_eq_true,
          if_false, hf]
        split
        · rfl
        · exact resolveImports_some_none rest fnSig (by omega)
    · have hm : importMatches (lib :: rest) = importMatches rest := by
        simp [importMatches, hp]
      rw [hm] at h
      simp only [resolveImports, hp, Bool.not_false, if_true]
      exact ih h

/-- C5 counterexample: the claim as stated is false, because the cascade
also searches the unnamed default library.  With no local and no
current-library match but a match in the unnamed library, a call whose
parts list also matches two imported libraries resolves to the unnamed
library's signature instead of returning no signature. -/
theorem checkC5_counterexample :
    CheckFunctionCall none none
        (some ⟨7, VisibilityType.publicVis⟩)
        [⟨true, some ⟨1, VisibilityType.publicVis⟩, false⟩,
         ⟨true, some ⟨2, VisibilityType.publicVis⟩, false⟩] =
      some ⟨7, VisibilityType.publicVis⟩ ∧
    importMatches
        [⟨true, some ⟨1, VisibilityType.publicVis⟩, false⟩,
         ⟨true, some ⟨2, VisibilityType.publicVis⟩, false⟩] = 2 ∧
    (CheckFunctionCall none none
        (some ⟨7, VisibilityType.publicVis⟩)
        [⟨true, some ⟨1, VisibilityType.publicVis⟩, false⟩,
         ⟨true, some ⟨2, VisibilityType.publicVis⟩, false⟩]
      == (none : Option FunctionSignature)) = false := by
  refine ⟨rfl, rfl, rfl⟩

/-- C5 amended: if a call's parts list matches signatures in two or more
imported libraries and no local, current-library or unnamed-default-library
match exists, `CheckFunctionCall` returns no signature (after logging the
ambiguity warning), and the statement then fails to compile with the parse
error "Unknown symbol in statement". -/
theorem checkC5 (imports : List ImportedLibrary)
    (h2 : 2 ≤ importMatches imports) :
    CheckFunctionCall none none none imports = none ∧
    ParseStatementUnknownSymbol (CheckFunctionCall none none none imports)
      StatementHead.nameHead = true := by
  have h := resolveImports_ambiguous imports h2
  refine ⟨h, ?_⟩
  show ParseStatementUnknownSymbol (resolveImports imports none) _ = true
  rw [h]
  rfl

/-- C5 witness: the amended ambiguity theorem at a concrete import list
with two matching libraries. -/
theorem checkC5_witness :
    CheckFunctionCall none none none
        [⟨true, some ⟨1, VisibilityType.publicVis⟩, false⟩,
         ⟨true, some ⟨2, VisibilityType.publicVis⟩, false⟩] = none ∧
    ParseStatementUnknownSymbol
        (CheckFunctionCall none none none
          [⟨true, some ⟨1, VisibilityType.publicVis⟩, false⟩,
           ⟨true, some ⟨2, VisibilityType.publicVis⟩, false⟩])
        StatementHead.nameHead = true :=
  checkC5 [⟨true, some ⟨1, VisibilityType.publicVis⟩, false⟩,
           ⟨true, some ⟨2, VisibilityType.publicVis⟩, false⟩] (by decide)

/-- Result of a parser run: the sticky `m_error` flag and the bytecode
buffer (the buffer is created in the parser's constructor, JxParser.cpp
lines 13-26, so it is always present). -/
structure ParserOutcome where
  error : Bool
  bytecode : List Nat
  deriving DecidableEq, Repr

/-- Embeds `Parser::Execute` (JxParser.cpp lines 28-43): reserves the
buffer, writes the header, parses, and reports success as `!m_error`. -/
def ParserExecute (p : ParserOutcome) : Bool := !p.error

/-- Embeds `Runtime::Compile` (JxRuntime.cpp lines 36-72): run the lexer
and return no bytecode when it reports failure; otherwise run the parser on
the lexer's symbol list and return no bytecode when it reports failure;
otherwise return the parser's bytecode buffer. -/
def RuntimeCompile (lexOk : Bool) (symbols : List Nat)
    (parserRun : List Nat → ParserOutcome) : Option (List Nat) :=
  if !lexOk then none
  else
    let parser := parserRun symbols
    if !(ParserExecute parser) then none
    else some parser.bytecode

/-- C7: `Runtime::Compile` returns no bytecode exactly when the lexer or
the parser flags failure, and returns the parser's bytecode (only) when
neither flagged an error. -/
theorem checkC7 (lexOk : Bool) (symbols : List Nat)
    (parserRun : List Nat → ParserOutcome) :
    (RuntimeCompile lexOk symbols parserRun = none ↔
      lexOk = false ∨ (parserRun symbols).error = true) ∧
    (∀ bc, RuntimeCompile lexOk symbols parserRun = some bc →
      lexOk = true ∧ (parserRun symbols).error = false ∧
        bc = (parserRun symbols).bytecode) := by
  cases lexOk with
  | false => simp [RuntimeCompile]
  | true =>
    cases he : (parserRun symbols).error with
    | false =>
      constructor
      · simp [RuntimeCompile, ParserExecute, he]
      · intro bc h
        simp only [RuntimeCompile, ParserExecute, he, Bool.not_true,
          Bool.not_false, Bool.false_eq_true, if_false,
          Option.some.injEq] at h
        exact ⟨rfl, rfl, h.symm⟩
    | true => simp [RuntimeCompile, ParserExecute, he]

/-- Compile-relevant library state: the property names registered so far in
the parser's owning library (`Library::RegisterPropertyName` /
`PropertyNameExists`).  The library is owned by the runtime, so this state
persists from one compile to the next. -/
structure LibraryState where
  propertyNames : List String
  deriving DecidableEq, Repr

/-- Embeds the name-registration path of
`Parser::ParsePropertyDeclaration` (JxParser.cpp lines 879-957): a property
name equal to an import library name is an error; a name for which
`m_library->PropertyNameExists(name)` already holds is the error "Property
is already defined"; otherwise the name is registered in the runtime-owned
library and the declaration compiles.  Returns the success flag and the
updated library state. -/
def ParsePropertyDeclaration (lib : LibraryState)
    (importList : List String) (name : String) : Bool × LibraryState :=
  if name ∈ importList then (false, lib)
  else if name ∈ lib.propertyNames then (false, lib)
  else (true, ⟨name :: lib.propertyNames⟩)

/-- C8 counterexample: compiling the same property declaration twice is not
byte-identical across repeated runs — registration survives in the
runtime-owned library, so the first run succeeds and the second run of the
very same compile fails with "Property is already defined". -/
theorem checkC8_counterexample :
    ParsePropertyDeclaration ⟨[]⟩ [] "p" =
      (true, ⟨["p"]⟩) ∧
    ParsePropertyDeclaration (ParsePropertyDeclaration ⟨[]⟩ [] "p").2 []
        "p" = (false, ⟨["p"]⟩) ∧
    (ParsePropertyDeclaration (ParsePropertyDeclaration ⟨[]⟩ [] "p").2 []
        "p" == ParsePropertyDeclaration ⟨[]⟩ [] "p") = false := by
  refine ⟨by decide, by decide, by decide⟩

/-- C8 amended: compilation is deterministic as a function of the source
text and the runtime's library state — equal states give identical results
— but a compile mutates that shared state: a property-declaring compile
registers the name, so running the very same compile again from the
resulting state fails ("Property is already defined") instead of
reproducing the output. -/
theorem checkC8 (lib lib2 : LibraryState) (importList : List String)
    (name : String) :
    (lib2 = lib → ParsePropertyDeclaration lib2 importList name =
      ParsePropertyDeclaration lib importList name) ∧
    (name ∉ importList → name ∉ lib.propertyNames →
      (ParsePropertyDeclaration lib importList name).1 = true ∧
      (ParsePropertyDeclaration
        (ParsePropertyDeclaration lib importList name).2 importList
        name).1 = false) := by
  constructor
  · intro h
    rw [h]
  · intro h1 h2
    simp [ParsePropertyDeclaration, h1, h2]

/-- A library as `Runtime::GetLibrary` creates it
(`allocate_shared<Library>(…, shared_from_this(), name)`): its name and, at
creation, no registered property names. -/
structure Library where
  name : String
  propertyNames : List String
  deriving DecidableEq, Repr

/-- The fresh, empty library `GetLibrary` constructs for an unknown name. -/
def emptyLibrary (name : String) : Library := ⟨name, []⟩

/-- Lookup in the runtime's `m_libraryMap` (name to library), modelled as
an association list whose most recent insertion shadows older entries. -/
def libraryMapFind : List (String × Library) → String → Option Library
  | [], _ => none
  | (k, lib) :: rest, name =>
    if k = name then some lib else libraryMapFind rest name

/-- Embeds `Runtime::GetLibrary` (JxRuntime.cpp lines 159-170): look the
name up in `m_libraryMap`; when absent, create an empty library, insert it
under the name and return it; when present, return the registered library
and leave the map unchanged.  The function is total: it never fails. -/
def GetLibrary (m : List (String × Library)) (name : String) :
    Library × List (String × Library) :=
  match libraryMapFind m name with
  | none =>
    let library := emptyLibrary name
    (library, (name, library) :: m)
  | some library => (library, m)

/-- Embeds `Runtime::LibraryExists` (JxRuntime.cpp lines 172-176): whether
`m_libraryMap` holds the name. -/
def LibraryExists (m : List (String × Library)) (name : String) : Bool :=
  (libraryMapFind m name).isSome

/-- C9: `GetLibrary` never fails; when the name is unknown it registers a
fresh empty library under that name and returns it; afterwards
`LibraryExists` holds and every later `GetLibrary` with the same name
returns the same library without changing the map; a registered library is
returned as registered. -/
theorem checkC9 (m : List (String × Library)) (name : String) :
    LibraryExists (GetLibrary m name).2 name = true ∧
    GetLibrary (GetLibrary m name).2 name =
      ((GetLibrary m name).1, (GetLibrary m name).2) ∧
    (libraryMapFind m name = none →
      (GetLibrary m name).1 = emptyLibrary name) ∧
    (∀ lib, libraryMapFind m name = some lib →
      (GetLibrary m name).1 = lib) := by
  cases h : libraryMapFind m name with
  | none =>
    refine ⟨?_, ?_, fun _ => ?_, fun lib hlib => ?_⟩
    · simp [GetLibrary, h, LibraryExists, libraryMapFind]
    · simp [GetLibrary, h, libraryMapFind]
    · simp [GetLibrary, h]
    · exact absurd hlib (by simp)
  | some lib =>
    refine ⟨?_, ?_, fun hn => ?_, fun lib2 hlib2 => ?_⟩
    · simp [GetLibrary, h, LibraryExists]
    · simp [GetLibrary, h]
    · exact absurd hn (by simp)
    · simp only [GetLibrary, h]
      exact Option.some_injective _ hlib2

/-- Variant keys: any primitive Variant kind (the spec excludes
collection-valued keys). -/
inductive VariantKey where
  | nullKey
  | boolKey (b : Bool)
  | intKey (i : Int)
  | strKey (s : String)
  deriving DecidableEq, Repr

/-- Variant values for the property-store claims, with collections as
insertion-ordered key/value lists. -/
inductive Variant where
  | nullVal
  | boolVal (b : Bool)
  | intVal (i : Int)
  | strVal (s : String)
  | collection (entries : List (VariantKey × Variant))

/-- The C++ collection's `operator[]` assignment: overwrite the value of an
existing key in place, or append the new key at the end. -/
def collectionSet : List (VariantKey × Variant) → VariantKey → Variant →
    List (VariantKey × Variant)
  | [], key, value => [(key, value)]
  | (k0, v0) :: rest, key, value =>
    if k0 = key then (k0, value) :: rest
    else (k0, v0) :: collectionSet rest key value

/-- Collection lookup by key. -/
def collectionFind : List (VariantKey × Variant) → VariantKey →
    Option Variant
  | [], _ => none
  | (k0, v0) :: rest, key =>
    if k0 = key then some v0 else collectionFind rest key

/-- Lookup in the runtime's `m_propertyMap` (RuntimeID to Variant). -/
def propertyMapFind : List (Nat × Variant) → Nat → Option Variant
  | [], _ => none
  | (k0, v0) :: rest, id =>
    if k0 = id then some v0 else propertyMapFind rest id

/-- In-place mutation of an existing property-map entry (the C++ code
mutates the found iterator's collection through its shared pointer). -/
def propertyMapSet : List (Nat × Variant) → Nat → Variant →
    List (Nat × Variant)
  | [], _, _ => []
  | (k0, v0) :: rest, id, v =>
    if k0 = id then (k0, v) :: rest
    else (k0, v0) :: propertyMapSet rest id v

/-- Embeds `Runtime::SetPropertyKeyValue` (JxRuntime.cpp lines 382-394):
find the property by id — if absent, return false; if its variant is not a
collection, return false; otherwise store the value under the key in the
property's collection and return true.  Returns the flag and the resulting
property map. -/
def SetPropertyKeyValue (m : List (Nat × Variant)) (id : Nat)
    (key : VariantKey) (value : Variant) : Bool × List (Nat × Variant) :=
  match propertyMapFind m id with
  | none => (false, m)
  | some variant =>
    match variant with
    | .collection entries =>
      (true,
        propertyMapSet m id (.collection (collectionSet entries key value)))
    | _ => (false, m)

theorem propertyMapFind_set (m : List (Nat × Variant)) (id : Nat)
    (v w : Variant) (h : propertyMapFind m id = some w) :
    propertyMapFind (propertyMapSet m id v) id = some v := by
  induction m with
  | nil => simp [propertyMapFind] at h
  | cons p rest ih =>
    obtain ⟨k0, v0⟩ := p
    by_cases hk : k0 = id
    · simp [propertyMapFind, propertyMapSet, hk]
    · simp only [propertyMapFind, propertyMapSet, if_neg hk] at h ⊢
      exact ih h

theorem collectionFind_set (entries : List (VariantKey × Variant))
    (key : VariantKey) (value : Variant) :
    collectionFind (collectionSet entries key value) key = some value := by
  induction entries with
  | nil => simp [collectionSet, collectionFind]
  | cons p rest ih =>
    obtain ⟨k0, v0⟩ := p
    by_cases hk : k0 = key
    · simp [collectionSet, collectionFind, hk]
    · simp only [collectionSet, collectionFind, if_neg hk]
      exact ih

/-- C10: `SetPropertyKeyValue` returns true exactly when a property with
the given id exists and holds a collection; on failure the property map is
left unchanged; on success the property's collection gains the key/value
binding (looking the key up in the stored collection yields the value). -/
theorem checkC10 (m : List (Nat × Variant)) (id : Nat) (key : VariantKey)
    (value : Variant) :
    ((SetPropertyKeyValue m id key value).1 = true ↔
      ∃ entries, propertyMapFind m id = some (.collection entries)) ∧
    ((SetPropertyKeyValue m id key value).1 = false →
      (SetPropertyKeyValue m id key value).2 = m) ∧
    (∀ entries, propertyMapFind m id = some (.collection entries) →
      propertyMapFind (SetPropertyKeyValue m id key value).2 id =
        some (.collection (collectionSet entries key value))) ∧
    (∀ entries,
      collectionFind (collectionSet entries key value) key = some value) := by
  refine ⟨?_, ?_, ?_, fun entries => collectionFind_set entries key value⟩
  · cases h : propertyMapFind m id with
    | none => simp [SetPropertyKeyValue, h]
    | some variant =>
      cases variant <;> simp [SetPropertyKeyValue, h]
  · cases h : propertyMapFind m id with
    | none => intro _; simp [SetPropertyKeyValue, h]
    | some variant =>
      cases variant <;> simp [SetPropertyKeyValue, h]
  · intro entries h
    simp only [SetPropertyKeyValue, h]
    exact propertyMapFind_set m id _ _ h

end Jinx
